import Mathlib

/-!
Verification of the replay-buffer-pro segment-extraction pipeline.

The definitions below are a shallow embedding of the C++ sources:
* VideoTrimmer::trimToLastSeconds, getVideoDuration, setupOutputStreams
  (src/utils/video-trimmer.cpp),
* ReplayBufferManager::saveSegment, saveFullBuffer, getTrimmedOutputPath,
  trimReplayBuffer (src/managers/replay-buffer-manager.cpp),
* Plugin::handleReplayBufferSaved (src/plugin/plugin.cpp).

External libavformat calls (open, probe, seek, write) are modelled by an
environment record carrying each call's result; demuxed packets are modelled
as an explicit list; timestamps in seconds are modelled as rationals
(the C++ uses doubles; the comparisons proved here do not depend on
rounding); av_rescale_q is kept abstract as a function parameter.
-/

namespace ReplayBufferPro

/-- A demuxed packet as trimToLastSeconds sees it: stream index, optional
presentation and decode timestamps (AV_NOPTS_VALUE becomes none), duration
in time-base units, and the AV_PKT_FLAG_KEY bit. -/
structure AVPacketModel where
  streamIndex : Nat
  pts : Option Int
  dts : Option Int
  duration : Int
  keyFlag : Bool
deriving DecidableEq

/-- A source stream: av_q2d of its time base, whether its codec type is
AVMEDIA_TYPE_VIDEO, and its optional container-level duration in time-base
units (AV_NOPTS_VALUE becomes none). -/
structure AVStreamModel where
  timeBase : ℚ
  codecVideo : Bool
  durationOpt : Option Int
deriving DecidableEq

/-- Inline duration determination of trimToLastSeconds (video-trimmer.cpp
lines 72-84): use the container duration if set, otherwise the maximum of
the per-stream durations, folded from an initial value of -1. -/
def containerDuration (ctxDuration : Option ℚ) (streams : List AVStreamModel) : ℚ :=
  match ctxDuration with
  | some d => d
  | none =>
    streams.foldl
      (fun acc s =>
        match s.durationOpt with
        | some d => max acc ((d : ℚ) * s.timeBase)
        | none => acc)
      (-1)

/-- VideoTrimmer::getVideoDuration when called with the already-open input
context (video-trimmer.cpp lines 350-362): same computation as the inline
one but folding from 0 instead of -1. -/
def getVideoDuration (ctxDuration : Option ℚ) (streams : List AVStreamModel) : ℚ :=
  match ctxDuration with
  | some d => d
  | none =>
    streams.foldl
      (fun acc s =>
        match s.durationOpt with
        | some d => max acc ((d : ℚ) * s.timeBase)
        | none => acc)
      0

/-- The duration chain of trimToLastSeconds (lines 72-94): inline value,
falling back to the probe when non-positive, failing (none) when the probe
is also non-positive. -/
def totalDurationOf (ctxDuration : Option ℚ) (streams : List AVStreamModel) : Option ℚ :=
  let t := containerDuration ctxDuration streams
  let t2 := if t ≤ 0 then getVideoDuration ctxDuration streams else t
  if t2 ≤ 0 then none else some t2

/-- startTime = max(0.0, totalDuration - durationSeconds)
(video-trimmer.cpp line 100). -/
def startTimeOf (totalDuration : ℚ) (durationSeconds : Int) : ℚ :=
  max 0 (totalDuration - (durationSeconds : ℚ))

/-- First stream whose codec type is video (video-trimmer.cpp lines 137-142);
none models videoStreamIndex staying -1. -/
def findVideoStreamIndexAux : List AVStreamModel → Nat → Option Nat
  | [], _ => none
  | s :: rest, i => if s.codecVideo then some i else findVideoStreamIndexAux rest (i + 1)

def findVideoStreamIndex (streams : List AVStreamModel) : Option Nat :=
  findVideoStreamIndexAux streams 0

/-- Packet time used by the keyframe scan (lines 162-166): pts only,
defaulting to 0 when pts is AV_NOPTS_VALUE. -/
def scanPacketTime (tb : ℚ) (p : AVPacketModel) : ℚ :=
  match p.pts with
  | some v => (v : ℚ) * tb
  | none => 0

/-- Result of the keyframe scan: keyframeTime (none models AV_NOPTS_VALUE)
and effectiveStartTime. -/
structure ScanResult where
  keyframeTime : Option Int
  effectiveStartTime : ℚ
deriving DecidableEq

/-- The forward keyframe scan of trimToLastSeconds (lines 156-181), with the
mutable keyframeTime / effectiveStartTime threaded as accumulators: on each
primary-stream packet, a key-flagged packet first overwrites both
accumulators, then the scan stops if the packet time exceeds startTime. -/
def findAnchorAux (tb : ℚ) (vIdx : Nat) (startTime : ℚ) :
    List AVPacketModel → Option Int → ℚ → ScanResult
  | [], k, e => ⟨k, e⟩
  | p :: rest, k, e =>
    if p.streamIndex = vIdx then
      let pt := scanPacketTime tb p
      let k2 := if p.keyFlag then p.pts else k
      let e2 := if p.keyFlag then pt else e
      if pt > startTime then ⟨k2, e2⟩
      else findAnchorAux tb vIdx startTime rest k2 e2
    else findAnchorAux tb vIdx startTime rest k e

/-- The keyframe scan started from keyframeTime = AV_NOPTS_VALUE and
effectiveStartTime = startTime (lines 47 and 156). -/
def findAnchor (tb : ℚ) (vIdx : Nat) (startTime : ℚ) (pkts : List AVPacketModel) : ScanResult :=
  findAnchorAux tb vIdx startTime pkts none startTime

/-- The packets the scan examines: everything up to and including the first
primary-stream packet whose scan time exceeds startTime. Used to state the
specification-level characterization of findAnchor. -/
def scanWindow (tb : ℚ) (vIdx : Nat) (startTime : ℚ) : List AVPacketModel → List AVPacketModel
  | [] => []
  | p :: rest =>
    if p.streamIndex = vIdx then
      if scanPacketTime tb p > startTime then [p]
      else p :: scanWindow tb vIdx startTime rest
    else p :: scanWindow tb vIdx startTime rest

/-- Specification-level anchor: the last key-flagged primary-stream packet
among the examined packets, else the fallback (no keyframe, startTime). -/
def anchorSpec (tb : ℚ) (vIdx : Nat) (startTime : ℚ) (pkts : List AVPacketModel) : ScanResult :=
  match ((scanWindow tb vIdx startTime pkts).filter
      (fun p => p.streamIndex == vIdx && p.keyFlag)).getLast? with
  | some p => ⟨p.pts, scanPacketTime tb p⟩
  | none => ⟨none, startTime⟩

/-- Packet comparison time of the copy loop (lines 217-223): pts if set,
else dts, else 0. -/
def copyPacketTime (tb : ℚ) (p : AVPacketModel) : ℚ :=
  match p.pts with
  | some v => (v : ℚ) * tb
  | none =>
    match p.dts with
    | some v => (v : ℚ) * tb
    | none => 0

/-- A packet as written to the sink by av_interleaved_write_frame. -/
structure OutPacket where
  streamIndex : Nat
  pts : Option Int
  dts : Option Int
  duration : Int
deriving DecidableEq

/-- The stream-copy loop of trimToLastSeconds (lines 204-281). The
firstPtsPerStream vector is threaded as offs; resc models av_rescale_q from
the input stream time base to the output stream time base; iTb and oTb give
each stream's input and output time bases. Packets whose comparison time is
before effStart are skipped; the first retained timestamped packet of each
stream sets that stream's offset, which is then subtracted from that
stream's pts and dts. -/
def copyLoopAux (resc : Int → ℚ → ℚ → Int) (iTb oTb : Nat → ℚ) (effStart : ℚ) :
    List AVPacketModel → (Nat → Option Int) → List OutPacket
  | [], _ => []
  | p :: rest, offs =>
    let itb := iTb p.streamIndex
    let otb := oTb p.streamIndex
    let packetTime := copyPacketTime itb p
    if packetTime < effStart then
      copyLoopAux resc iTb oTb effStart rest offs
    else
      let streamFirstPts :=
        match offs p.streamIndex with
        | some f => some f
        | none =>
          match p.pts with
          | some v => some (resc v itb otb)
          | none =>
            match p.dts with
            | some v => some (resc v itb otb)
            | none => none
      let outPts :=
        match p.pts with
        | some v =>
          match streamFirstPts with
          | some f => some (resc v itb otb - f)
          | none => some (resc v itb otb)
        | none => none
      let outDts :=
        match p.dts with
        | some v =>
          match streamFirstPts with
          | some f => some (resc v itb otb - f)
          | none => some (resc v itb otb)
        | none => none
      let outDur := if p.duration > 0 then resc p.duration itb otb else p.duration
      ⟨p.streamIndex, outPts, outDts, outDur⟩ ::
        copyLoopAux resc iTb oTb effStart rest
          (fun i => if i = p.streamIndex then streamFirstPts else offs i)

/-- The copy loop started with every stream's firstPtsPerStream entry at
AV_NOPTS_VALUE (line 211). -/
def copyLoop (resc : Int → ℚ → ℚ → Int) (iTb oTb : Nat → ℚ) (effStart : ℚ)
    (pkts : List AVPacketModel) : List OutPacket :=
  copyLoopAux resc iTb oTb effStart pkts (fun _ => none)

/-- A written packet carrying at least one timestamp. -/
def hasTimestamp (q : OutPacket) : Bool :=
  q.pts.isSome || q.dts.isSome

/-- A concrete identity rescaler, standing in for av_rescale_q between equal
time bases, used to evaluate the copy loop on concrete inputs. -/
def rescId : Int → ℚ → ℚ → Int := fun v _ _ => v

/-! ## Paths and filesystem -/

/-- Index of the last occurrence of a character, mirroring
std::string::find_last_of; none models std::string::npos. -/
def lastIndexOf (c : Char) : List Char → Option Nat
  | [] => none
  | x :: xs =>
    match lastIndexOf c xs with
    | some i => some (i + 1)
    | none => if x = c then some 0 else none

/-- The literal suffix inserted by getTrimmedOutputPath. -/
def trimmedSuffix : List Char := "_trimmed".toList

/-- ReplayBufferManager::getTrimmedOutputPath (replay-buffer-manager.cpp
lines 99-113): insert the suffix before the last dot of the whole path
string, or append it when the path has no dot. -/
def getTrimmedOutputPath (p : List Char) : List Char :=
  match lastIndexOf '.' p with
  | some i => p.take i ++ trimmedSuffix ++ p.drop i
  | none => p ++ trimmedSuffix

/-- Output-path construction as the specification words it: the suffix goes
immediately before the final extension, and a path whose final component has
no dot has no extension, so the suffix is appended. The final component is
everything after the last path separator. -/
def specTrimmedOutputPath (p : List Char) : List Char :=
  match lastIndexOf '/' p with
  | some s =>
    let dir := p.take (s + 1)
    let base := p.drop (s + 1)
    match lastIndexOf '.' base with
    | some i => dir ++ base.take i ++ trimmedSuffix ++ base.drop i
    | none => p ++ trimmedSuffix
  | none =>
    match lastIndexOf '.' p with
    | some i => p.take i ++ trimmedSuffix ++ p.drop i
    | none => p ++ trimmedSuffix

/-- The filesystem as the set of existing file paths. -/
abbrev FS : Type := List (List Char)

/-- Creating (or truncating) a file, as avio_open with AVIO_FLAG_WRITE does
for the sink path. -/
def fsCreate (fs : FS) (p : List Char) : FS :=
  if p ∈ fs then fs else p :: fs

/-- Deleting a file, as os_unlink does. -/
def fsUnlink (fs : FS) (p : List Char) : FS :=
  List.filter (fun q => decide (q ≠ p)) fs

/-! ## Trim engine control flow over the filesystem -/

/-- Results of the external libavformat calls made by one
trimToLastSeconds run, in the order the code makes them. Seek results are
not modelled: a failed av_seek_frame is only logged and the run continues
(video-trimmer.cpp lines 146-150, 189-193). -/
structure TrimEnv where
  openInputOk : Bool
  findStreamInfoOk : Bool
  ctxDuration : Option ℚ
  streams : List AVStreamModel
  allocOutputOk : Bool
  setupStreamsOk : Bool
  formatNoFile : Bool
  avioOpenOk : Bool
  writeHeaderOk : Bool
  copyPacketAllocOk : Bool
  writeFrameOk : Bool
  writeTrailerOk : Bool
deriving DecidableEq

/-- The failure/success control flow of VideoTrimmer::trimToLastSeconds
(lines 37-316) at filesystem granularity. The sink file exists from the
moment avio_open succeeds; every later exit, the cleanup label included
(lines 300-310), only closes and frees the contexts, so the file stays in
the filesystem whether the run fails or succeeds. -/
def trimToLastSecondsFS (env : TrimEnv) (fs : FS) (outputPath : List Char) : Bool × FS :=
  if !env.openInputOk then (false, fs)
  else if !env.findStreamInfoOk then (false, fs)
  else
    match totalDurationOf env.ctxDuration env.streams with
    | none => (false, fs)
    | some _ =>
      if !env.allocOutputOk then (false, fs)
      else if !env.setupStreamsOk then (false, fs)
      else if !env.formatNoFile && !env.avioOpenOk then (false, fs)
      else
        let fs1 := if env.formatNoFile then fs else fsCreate fs outputPath
        if !env.writeHeaderOk then (false, fs1)
        else if !env.copyPacketAllocOk then (false, fs1)
        else if !env.writeFrameOk then (false, fs1)
        else if !env.writeTrailerOk then (false, fs1)
        else (true, fs1)

/-- ReplayBufferManager::trimReplayBuffer (replay-buffer-manager.cpp lines
116-141): build the output path, run the trim engine, and delete the source
only when the engine returned success; a failure throws past the os_unlink
call into the catch block, leaving the filesystem as the engine left it. -/
def trimReplayBuffer (env : TrimEnv) (fs : FS) (sourcePath : List Char) : FS :=
  let outputPath := getTrimmedOutputPath sourcePath
  let r := trimToLastSecondsFS env fs outputPath
  if r.1 then fsUnlink r.2 sourcePath else r.2

/-! ## Save coordination -/

/-- Outcome of ReplayBufferManager::saveSegment, distinguished in the code
by the returned bool plus which warning text is shown. -/
inductive SaveSegmentResult
  | success
  | notActive
  | exceedsBuffer
deriving DecidableEq

/-- The manager state: the single pending-save-duration slot. -/
structure MgrState where
  pendingSaveDuration : Int
deriving DecidableEq

/-- ReplayBufferManager::saveSegment (replay-buffer-manager.cpp lines
33-63), with the host queries obs_frontend_replay_buffer_active and
SettingsManager::getCurrentBufferLength passed in as values. Returns the
outcome, the new state, and whether obs_frontend_replay_buffer_save was
invoked. -/
def saveSegment (replayActive : Bool) (currentBufferLength : Int) (duration : Int)
    (st : MgrState) : SaveSegmentResult × MgrState × Bool :=
  if !replayActive then (.notActive, st, false)
  else if duration > currentBufferLength then (.exceedsBuffer, st, false)
  else (.success, ⟨duration⟩, true)

/-- ReplayBufferManager::saveFullBuffer (lines 65-78): trigger the host save
when the buffer is active, never touching the pending slot. Returns the
bool result, the new state, and whether the host save was invoked. -/
def saveFullBuffer (replayActive : Bool) (st : MgrState) : Bool × MgrState × Bool :=
  if replayActive then (true, st, true) else (false, st, false)

/-- Plugin::handleReplayBufferSaved (plugin.cpp lines 217-239): read the
pending duration; when positive, clear it, then query
obs_frontend_get_last_replay and, when a path is returned, dispatch one
background trim job for (path, duration). Returns the new state and the
dispatched job, if any. -/
def handleReplayBufferSaved (lastReplay : Option (List Char)) (st : MgrState) :
    MgrState × Option (List Char × Int) :=
  let duration := st.pendingSaveDuration
  if duration > 0 then
    let st1 : MgrState := ⟨0⟩
    match lastReplay with
    | some p => (st1, some (p, duration))
    | none => (st1, none)
  else (st, none)

/-- A trim run whose external calls all succeed up to avformat_write_header,
which fails: the sink file has already been created by avio_open. -/
def envHeaderFail : TrimEnv :=
  { openInputOk := true, findStreamInfoOk := true, ctxDuration := some 10, streams := [],
    allocOutputOk := true, setupStreamsOk := true, formatNoFile := false, avioOpenOk := true,
    writeHeaderOk := false, copyPacketAllocOk := true, writeFrameOk := true,
    writeTrailerOk := true }

/-! # Theorems -/

theorem take_add_decomp {α : Type} : ∀ (m n : Nat) (l : List α),
    l.take (m + n) = l.take m ++ (l.drop m).take n
  | 0, _, _ => by simp
  | _ + 1, _, [] => by simp
  | m + 1, n, x :: xs => by
    simp only [Nat.succ_add, List.take_succ_cons, List.drop_succ_cons, List.cons_append,
      take_add_decomp m n xs]

/-- Claim C3: saveSegment fails with NotActive when the replay buffer is not
active and with ExceedsBuffer when the duration exceeds the current buffer
length, in both cases triggering no host save and leaving the pending slot
unchanged; otherwise it arms the pending slot with the duration, triggers
the host save, and returns success. -/
theorem saveSegment_validation (active : Bool) (len d : Int) (st : MgrState) :
    (active = false → saveSegment active len d st = (.notActive, st, false)) ∧
    (active = true → d > len → saveSegment active len d st = (.exceedsBuffer, st, false)) ∧
    (active = true → d ≤ len → saveSegment active len d st = (.success, ⟨d⟩, true)) := by
  refine ⟨fun h => ?_, fun h h2 => ?_, fun h h2 => ?_⟩ <;> subst h
  · simp [saveSegment]
  · simp [saveSegment, h2]
  · simp [saveSegment, show ¬(d > len) from by omega]

/-- Witness for C3: concrete inactive, oversized, and valid requests. -/
theorem saveSegment_validation_witness :
    saveSegment false 500 30 ⟨0⟩ = (.notActive, ⟨0⟩, false) ∧
    saveSegment true 10 30 ⟨0⟩ = (.exceedsBuffer, ⟨0⟩, false) ∧
    saveSegment true 500 30 ⟨0⟩ = (.success, ⟨30⟩, true) :=
  ⟨(saveSegment_validation false 500 30 ⟨0⟩).1 rfl,
   (saveSegment_validation true 10 30 ⟨0⟩).2.1 rfl (by norm_num),
   (saveSegment_validation true 500 30 ⟨0⟩).2.2 rfl (by norm_num)⟩

/-- Claim C4: with a positive pending duration armed, the first completion
notification consumes it (clearing the slot before the job is handed out)
and dispatches exactly one trim job; a second completion arriving with no
re-arming observes the cleared slot and dispatches nothing. -/
theorem handleReplayBufferSaved_consume_once (st : MgrState) (p1 p2 : List Char)
    (h : 0 < st.pendingSaveDuration) :
    handleReplayBufferSaved (some p1) st = (⟨0⟩, some (p1, st.pendingSaveDuration)) ∧
    handleReplayBufferSaved (some p2) (handleReplayBufferSaved (some p1) st).1 = (⟨0⟩, none) := by
  constructor
  · simp [handleReplayBufferSaved, h]
  · simp [handleReplayBufferSaved, h]

/-- Witness for C4: pending duration 30, two completions, one dispatch. -/
theorem handleReplayBufferSaved_consume_once_witness :
    handleReplayBufferSaved (some "a.mp4".toList) (⟨30⟩ : MgrState)
      = (⟨0⟩, some ("a.mp4".toList, 30)) ∧
    handleReplayBufferSaved (some "b.mp4".toList)
      (handleReplayBufferSaved (some "a.mp4".toList) (⟨30⟩ : MgrState)).1 = (⟨0⟩, none) :=
  handleReplayBufferSaved_consume_once ⟨30⟩ "a.mp4".toList "b.mp4".toList (by norm_num)

/-- Claim C8: saveFullBuffer never touches the pending slot; when the buffer
is inactive it fails and triggers nothing, when active it triggers the host
save; and with no pending duration armed, the subsequent completion
notification dispatches no trim job. -/
theorem saveFullBuffer_no_trim (active : Bool) (st : MgrState) (p : Option (List Char)) :
    (saveFullBuffer active st).2.1 = st ∧
    (active = false → saveFullBuffer active st = (false, st, false)) ∧
    (active = true → saveFullBuffer active st = (true, st, true)) ∧
    (st.pendingSaveDuration = 0 →
      handleReplayBufferSaved p (saveFullBuffer active st).2.1
        = ((saveFullBuffer active st).2.1, none)) := by
  refine ⟨?_, fun h => ?_, fun h => ?_, fun h => ?_⟩
  · cases active <;> simp [saveFullBuffer]
  · subst h; simp [saveFullBuffer]
  · subst h; simp [saveFullBuffer]
  · cases active <;> simp [saveFullBuffer, handleReplayBufferSaved, h]

/-- Witness for C8: an active full-buffer save from the idle state, followed
by a completion that dispatches nothing. -/
theorem saveFullBuffer_no_trim_witness :
    saveFullBuffer true ⟨0⟩ = (true, ⟨0⟩, true) ∧
    handleReplayBufferSaved (some "c.mp4".toList) (saveFullBuffer true ⟨0⟩).2.1
      = ((saveFullBuffer true ⟨0⟩).2.1, none) :=
  ⟨(saveFullBuffer_no_trim true ⟨0⟩ (some "c.mp4".toList)).2.2.1 rfl,
   (saveFullBuffer_no_trim true ⟨0⟩ (some "c.mp4".toList)).2.2.2 rfl⟩

theorem getTrimmedOutputPath_length (p : List Char) :
    (getTrimmedOutputPath p).length = p.length + 8 := by
  unfold getTrimmedOutputPath
  cases h : lastIndexOf '.' p with
  | none => simp [trimmedSuffix]
  | some i => simp [trimmedSuffix]; omega

theorem getTrimmedOutputPath_ne (p : List Char) : getTrimmedOutputPath p ≠ p := by
  intro h
  have hl := getTrimmedOutputPath_length p
  rw [h] at hl
  omega

theorem mem_fsCreate {fs : FS} {p q : List Char} :
    q ∈ fsCreate fs p ↔ q = p ∨ q ∈ fs := by
  unfold fsCreate
  split
  · rename_i hp
    constructor
    · exact Or.inr
    · rintro (rfl | hq)
      · exact hp
      · exact hq
  · simp [List.mem_cons]

theorem mem_fsUnlink {fs : FS} {p q : List Char} :
    q ∈ fsUnlink fs p ↔ q ∈ fs ∧ q ≠ p := by
  unfold fsUnlink
  simp [List.mem_filter]

theorem trimToLastSecondsFS_snd (env : TrimEnv) (fs : FS) (out : List Char) :
    (trimToLastSecondsFS env fs out).2 = fs ∨
    (trimToLastSecondsFS env fs out).2 = fsCreate fs out := by
  unfold trimToLastSecondsFS
  dsimp only
  repeat' split
  all_goals try (exact Or.inl rfl)
  all_goals cases hfn : env.formatNoFile <;> simp [hfn]

/-- Claim C1: the dispatched trim job deletes the original source file only
when the trim engine returned success; after a failed trim the source file
is exactly as present as it was before, so a failed trim never loses the
untrimmed footage. -/
theorem trimReplayBuffer_source_preserved (env : TrimEnv) (fs : FS) (src : List Char) :
    src ∈ trimReplayBuffer env fs src ↔
      src ∈ fs ∧ (trimToLastSecondsFS env fs (getTrimmedOutputPath src)).1 = false := by
  have hne : ¬(src = getTrimmedOutputPath src) :=
    fun h => getTrimmedOutputPath_ne src h.symm
  have hsnd := trimToLastSecondsFS_snd env fs (getTrimmedOutputPath src)
  unfold trimReplayBuffer
  dsimp only
  by_cases hok : (trimToLastSecondsFS env fs (getTrimmedOutputPath src)).1 = true
  · simp only [hok, if_true]
    simp [mem_fsUnlink, hok]
  · have hok2 : (trimToLastSecondsFS env fs (getTrimmedOutputPath src)).1 = false := by
      revert hok
      cases (trimToLastSecondsFS env fs (getTrimmedOutputPath src)).1 <;> simp
    simp only [hok2, if_false, Bool.false_eq_true]
    rcases hsnd with h2 | h2 <;> rw [h2] <;> simp [mem_fsCreate, hne]

/-- Counterexample to C2: a run in which avio_open creates the sink file and
the header write then fails returns failure with the partially-written sink
file still present in the filesystem. -/
theorem trimToLastSecondsFS_header_fail_leaves_sink :
    trimToLastSecondsFS envHeaderFail ["src.mp4".toList] "out.mp4".toList
      = (false, ["out.mp4".toList, "src.mp4".toList]) ∧
    (trimToLastSecondsFS envHeaderFail ["src.mp4".toList] "out.mp4".toList).1 = false ∧
    "out.mp4".toList ∈ (trimToLastSecondsFS envHeaderFail ["src.mp4".toList] "out.mp4".toList).2 := by
  have h : trimToLastSecondsFS envHeaderFail ["src.mp4".toList] "out.mp4".toList
      = (false, ["out.mp4".toList, "src.mp4".toList]) := by
    norm_num [trimToLastSecondsFS, envHeaderFail, totalDurationOf, containerDuration, fsCreate]
    decide
  refine ⟨h, by rw [h], by rw [h]; decide⟩

/-- Claim C2 as amended: once the sink file has been created, a later
failure (header, packet-allocation, packet-write or trailer-write) closes
and frees the output contexts but does not remove the partially-written
sink file, which remains in the filesystem when the function returns. -/
theorem trimToLastSecondsFS_sink_not_removed (env : TrimEnv) (fs : FS) (out : List Char)
    (h1 : env.openInputOk = true) (h2 : env.findStreamInfoOk = true)
    (h3 : (totalDurationOf env.ctxDuration env.streams).isSome = true)
    (h4 : env.allocOutputOk = true) (h5 : env.setupStreamsOk = true)
    (h6 : env.formatNoFile = false) (h7 : env.avioOpenOk = true) :
    out ∈ (trimToLastSecondsFS env fs out).2 := by
  obtain ⟨o, fi, cd, strs, ao, ss, fn, av, wh, cp, wf, wt⟩ := env
  dsimp only at h1 h2 h3 h4 h5 h6 h7
  subst h1 h2 h4 h5 h6 h7
  unfold trimToLastSecondsFS
  dsimp only
  rcases h3d : totalDurationOf cd strs with _ | t
  · rw [h3d] at h3; cases h3
  · simp only [h3d]
    (repeat' split) <;> simp_all [mem_fsCreate]

/-- Witness for the amended C2: the concrete header-failure run leaves the
sink file present. -/
theorem trimToLastSecondsFS_sink_not_removed_witness :
    "out.mp4".toList ∈ (trimToLastSecondsFS envHeaderFail ["src.mp4".toList] "out.mp4".toList).2 :=
  trimToLastSecondsFS_sink_not_removed envHeaderFail ["src.mp4".toList] "out.mp4".toList
    rfl rfl (by norm_num [totalDurationOf, containerDuration, envHeaderFail]) rfl rfl rfl rfl

theorem lastIndexOf_eq_none_iff (c : Char) (l : List Char) :
    lastIndexOf c l = none ↔ c ∉ l := by
  induction l with
  | nil => simp [lastIndexOf]
  | cons x xs ih =>
    unfold lastIndexOf
    cases h : lastIndexOf c xs with
    | some i =>
      have hc : c ∈ xs := by
        by_contra hcn
        rw [(ih.mpr hcn : lastIndexOf c xs = none)] at h
        cases h
      simp [List.mem_cons, hc]
    | none =>
      have hc : c ∉ xs := ih.mp h
      dsimp only
      split
      · rename_i hxc
        subst hxc
        simp
      · rename_i hxc
        simp [List.mem_cons, hc]
        exact fun hcx => hxc hcx.symm

theorem lastIndexOf_drop (c : Char) : ∀ (l : List Char) (k d : Nat),
    lastIndexOf c l = some d → k ≤ d → lastIndexOf c (List.drop k l) = some (d - k)
  | _, 0, _, h, _ => by simpa using h
  | [], _ + 1, _, h, _ => by simp [lastIndexOf] at h
  | x :: xs, k + 1, d, h, hk => by
    rw [List.drop_succ_cons]
    unfold lastIndexOf at h
    cases h2 : lastIndexOf c xs with
    | some i =>
      rw [h2] at h
      dsimp only at h
      have hd : i + 1 = d := by injection h
      have hrec := lastIndexOf_drop c xs k i h2 (by omega)
      rw [hrec]
      congr 1
      omega
    | none =>
      rw [h2] at h
      dsimp only at h
      split at h
      · exfalso
        have h0 : (0 : Nat) = d := by injection h
        omega
      · exact absurd h (by simp)

/-- Counterexample to C9: find_last_of matches the last dot anywhere in the
path string, so a dot inside a directory component is treated as the
extension even though the final component has none; the suffix lands inside
the directory name instead of being appended. -/
theorem getTrimmedOutputPath_dir_dot_counterexample :
    getTrimmedOutputPath "a.b/c".toList = "a_trimmed.b/c".toList ∧
    specTrimmedOutputPath "a.b/c".toList = "a.b/c_trimmed".toList ∧
    getTrimmedOutputPath "a.b/c".toList ≠ specTrimmedOutputPath "a.b/c".toList :=
  ⟨by decide, by decide, by decide⟩

/-- Claim C9 as amended: the suffix is inserted immediately before the last
dot of the whole path string, even when that dot lies in a directory
component; the suffix is appended only when the path contains no dot at
all. This coincides with inserting before the final component's extension
whenever the path has no dot, has no separator, or its last dot comes after
its last separator. -/
theorem getTrimmedOutputPath_matches_spec (p : List Char)
    (h : lastIndexOf '.' p = none ∨ lastIndexOf '/' p = none ∨
      ∃ d s, lastIndexOf '.' p = some d ∧ lastIndexOf '/' p = some s ∧ s < d) :
    getTrimmedOutputPath p = specTrimmedOutputPath p := by
  unfold getTrimmedOutputPath specTrimmedOutputPath
  rcases hs : lastIndexOf '/' p with _ | s
  · rfl
  · dsimp only
    rcases hd : lastIndexOf '.' p with _ | d
    · have hnd : '.' ∉ p := (lastIndexOf_eq_none_iff _ _).mp hd
      have hnone : lastIndexOf '.' (p.drop (s + 1)) = none :=
        (lastIndexOf_eq_none_iff _ _).mpr (fun hm => hnd (List.mem_of_mem_drop hm))
      rw [hnone]
    · have hsd : s < d := by
        rcases h with h | h | ⟨d2, s2, hd2, hs2, hlt⟩
        · rw [hd] at h; cases h
        · rw [hs] at h; cases h
        · rw [hd] at hd2
          rw [hs] at hs2
          have e1 : d = d2 := by injection hd2
          have e2 : s = s2 := by injection hs2
          omega
      have hdrop : lastIndexOf '.' (p.drop (s + 1)) = some (d - (s + 1)) :=
        lastIndexOf_drop '.' p (s + 1) d hd (by omega)
      rw [hdrop]
      dsimp only
      have e2 : p.take d = p.take (s + 1) ++ (p.drop (s + 1)).take (d - (s + 1)) := by
        rw [← take_add_decomp]
        congr 1
        omega
      rw [List.drop_drop, show s + 1 + (d - (s + 1)) = d from by omega, e2]

/-- Witness for the amended C9: a path whose last dot follows its last
separator, where both constructions agree. -/
theorem getTrimmedOutputPath_matches_spec_witness :
    getTrimmedOutputPath "rec/clip.mp4".toList = specTrimmedOutputPath "rec/clip.mp4".toList :=
  getTrimmedOutputPath_matches_spec "rec/clip.mp4".toList
    (Or.inr (Or.inr ⟨8, 3, by decide, by decide, by decide⟩))

theorem findAnchorAux_eq_spec (tb : ℚ) (vIdx : Nat) (cut : ℚ) :
    ∀ (pkts : List AVPacketModel) (k : Option Int) (e : ℚ),
    findAnchorAux tb vIdx cut pkts k e =
      (match ((scanWindow tb vIdx cut pkts).filter
          (fun p => p.streamIndex == vIdx && p.keyFlag)).getLast? with
      | some q => ⟨q.pts, scanPacketTime tb q⟩
      | none => ⟨k, e⟩)
  | [], k, e => by simp [findAnchorAux, scanWindow]
  | p :: rest, k, e => by
    have ih := findAnchorAux_eq_spec tb vIdx cut rest
    unfold findAnchorAux scanWindow
    by_cases hidx : p.streamIndex = vIdx
    · by_cases hstop : scanPacketTime tb p > cut
      · by_cases hkey : p.keyFlag
        · simp [hidx, hstop, hkey, List.filter_cons]
        · simp [hidx, hstop, hkey, List.filter_cons]
      · by_cases hkey : p.keyFlag
        · simp only [hidx, if_true, if_pos rfl, hstop, if_false, hkey, ite_true, ite_false]
          rw [ih]
          simp only [List.filter_cons, hidx, hkey, beq_self_eq_true, Bool.and_self, ite_true,
            Bool.and_true, if_pos rfl]
          rw [List.getLast?_cons]
          cases hl : (((scanWindow tb vIdx cut rest).filter
              (fun q => q.streamIndex == vIdx && q.keyFlag))).getLast? <;> simp [hl]
        · simp only [hidx, if_pos rfl, hstop, hkey, ite_true, ite_false, Bool.false_and,
            Bool.and_false]
          rw [ih]
          simp [List.filter_cons, hkey]
    · simp only [hidx, ite_false, if_neg hidx]
      rw [ih]
      simp [List.filter_cons, hidx]

/-- Counterexample to C5: with cutTime 570, a single primary-stream keyframe
at 571 is recorded in the same iteration that stops the scan, so the chosen
anchor lies strictly after cutTime rather than at or before it, and the
fallback to cutTime is not taken even though no keyframe at or before
cutTime exists. -/
theorem findAnchor_past_cut_counterexample :
    findAnchor 1 0 570 [⟨0, some 571, some 571, 0, true⟩] = ⟨some 571, 571⟩ ∧
    ¬((findAnchor 1 0 570 [⟨0, some 571, some 571, 0, true⟩]).effectiveStartTime ≤ 570) := by
  constructor
  · norm_num [findAnchor, findAnchorAux, scanPacketTime]
  · norm_num [findAnchor, findAnchorAux, scanPacketTime]

/-- Claim C5 as amended: the scan examines primary-stream packets up to and
including the first one whose timestamp exceeds cutTime; every key-flagged
examined packet, including one examined in the stopping iteration itself,
is recorded, and the last recorded keyframe becomes the anchor, which may
therefore lie strictly after cutTime; if no keyframe is examined at all,
cutTime itself remains the anchor. -/
theorem findAnchor_eq_anchorSpec (tb : ℚ) (vIdx : Nat) (cut : ℚ) (pkts : List AVPacketModel) :
    findAnchor tb vIdx cut pkts = anchorSpec tb vIdx cut pkts := by
  unfold findAnchor anchorSpec
  rw [findAnchorAux_eq_spec]

theorem copyLoopAux_timestamped (resc : Int → ℚ → ℚ → Int) (iTb oTb : Nat → ℚ)
    (effStart : ℚ) (hpos : 0 < effStart) :
    ∀ (pkts : List AVPacketModel) (offs : Nat → Option Int) (q : OutPacket),
    q ∈ copyLoopAux resc iTb oTb effStart pkts offs → q.pts.isSome ∨ q.dts.isSome
  | [], _, q, hq => by simp [copyLoopAux] at hq
  | p :: rest, offs, q, hq => by
    unfold copyLoopAux at hq
    by_cases hskip : copyPacketTime (iTb p.streamIndex) p < effStart
    · rw [if_pos hskip] at hq
      exact copyLoopAux_timestamped resc iTb oTb effStart hpos rest offs q hq
    · rw [if_neg hskip] at hq
      dsimp only at hq
      rcases List.mem_cons.mp hq with rfl | hmem
      · rcases hpts : p.pts with _ | v
        · rcases hdts : p.dts with _ | v2
          · exfalso
            exact hskip (by simp [copyPacketTime, hpts, hdts, hpos])
          · right
            cases hof : offs p.streamIndex <;> simp [hpts, hdts, hof]
        · left
          cases hof : offs p.streamIndex <;> simp [hpts, hof]
      · exact copyLoopAux_timestamped resc iTb oTb effStart hpos rest _ q hmem

/-- Claim C10: a packet carrying neither a presentation nor a decode
timestamp is assigned comparison time 0 by the copy loop, so whenever the
effective start time is positive, every untimestamped packet is discarded:
every packet written to the sink carries at least one timestamp. -/
theorem copyLoop_drops_untimestamped (resc : Int → ℚ → ℚ → Int) (iTb oTb : Nat → ℚ)
    (effStart : ℚ) (pkts : List AVPacketModel) (hpos : 0 < effStart) :
    (∀ (tb : ℚ) (p : AVPacketModel), p.pts = none → p.dts = none →
      copyPacketTime tb p = 0) ∧
    (∀ q ∈ copyLoop resc iTb oTb effStart pkts, q.pts.isSome ∨ q.dts.isSome) := by
  constructor
  · intro tb p hp hd
    simp [copyPacketTime, hp, hd]
  · intro q hq
    exact copyLoopAux_timestamped resc iTb oTb effStart hpos pkts (fun _ => none) q hq

/-- Witness for C10: with effective start 1, the untimestamped packet is
discarded and only the timestamped one is written. -/
theorem copyLoop_drops_untimestamped_witness :
    copyLoop rescId (fun _ => 1) (fun _ => 1) 1
      [⟨0, none, none, 1, false⟩, ⟨0, some 5, some 5, 1, false⟩] = [⟨0, some 0, some 0, 1⟩] ∧
    (∀ q ∈ copyLoop rescId (fun _ => 1) (fun _ => 1) 1
      [⟨0, none, none, 1, false⟩, ⟨0, some 5, some 5, 1, false⟩],
      q.pts.isSome ∨ q.dts.isSome) :=
  ⟨by norm_num [copyLoop, copyLoopAux, copyPacketTime, rescId],
   (copyLoop_drops_untimestamped rescId (fun _ => 1) (fun _ => 1) 1
     [⟨0, none, none, 1, false⟩, ⟨0, some 5, some 5, 1, false⟩] (by norm_num)).2⟩

theorem copyLoopAux_length_all (resc : Int → ℚ → ℚ → Int) (iTb oTb : Nat → ℚ)
    (effStart : ℚ) (he : effStart ≤ 0) :
    ∀ (pkts : List AVPacketModel) (offs : Nat → Option Int),
    (∀ p ∈ pkts, 0 ≤ copyPacketTime (iTb p.streamIndex) p) →
    (copyLoopAux resc iTb oTb effStart pkts offs).length = pkts.length
  | [], _, _ => by simp [copyLoopAux]
  | p :: rest, offs, hall => by
    unfold copyLoopAux
    have hp : ¬(copyPacketTime (iTb p.streamIndex) p < effStart) := by
      have h0 := hall p (List.mem_cons_self p rest)
      intro hlt
      linarith
    rw [if_neg hp]
    dsimp only
    rw [List.length_cons, List.length_cons,
      copyLoopAux_length_all resc iTb oTb effStart he rest _
        (fun q hq => hall q (List.mem_cons_of_mem p hq))]

/-- Counterexample to C7: an all-intra source of total duration 2 trimmed
with requested duration 5 clamps the cut time to 0, yet the keyframe scan
records the second keyframe (timestamp 1) in its stopping iteration, the
effective start becomes 1, and the copy loop discards the first packet, so
the output does not cover the entire input. -/
theorem trim_full_copy_counterexample :
    startTimeOf 2 5 = 0 ∧
    (findAnchor 1 0 (startTimeOf 2 5)
      [⟨0, some 0, some 0, 1, true⟩, ⟨0, some 1, some 1, 1, true⟩]).effectiveStartTime = 1 ∧
    (copyLoop rescId (fun _ => 1) (fun _ => 1)
      (findAnchor 1 0 (startTimeOf 2 5)
        [⟨0, some 0, some 0, 1, true⟩, ⟨0, some 1, some 1, 1, true⟩]).effectiveStartTime
      [⟨0, some 0, some 0, 1, true⟩, ⟨0, some 1, some 1, 1, true⟩]).length = 1 ∧
    ([⟨0, some 0, some 0, 1, true⟩,
      (⟨0, some 1, some 1, 1, true⟩ : AVPacketModel)]).length = 2 := by
  refine ⟨by norm_num [startTimeOf], ?_, ?_, by norm_num⟩
  · norm_num [startTimeOf, findAnchor, findAnchorAux, scanPacketTime]
  · norm_num [startTimeOf, findAnchor, findAnchorAux, scanPacketTime, copyLoop, copyLoopAux,
      copyPacketTime, rescId]

/-- Claim C7 as amended: when the requested duration is at least the total
duration the cut time clamps to 0; and provided the keyframe scan leaves
the effective start time at most 0 and every packet's comparison time is
nonnegative, the copy loop discards no packet, so the whole input is
copied. (The scan can still raise the effective start above 0 when a
keyframe with positive timestamp is examined in its stopping iteration, and
negative-timestamp packets are still discarded, as the counterexample
shows.) -/
theorem startTime_clamps_and_copies_all (T : ℚ) (D : Int) (tb : ℚ) (vIdx : Nat)
    (spkts : List AVPacketModel) (resc : Int → ℚ → ℚ → Int) (iTb oTb : Nat → ℚ)
    (pkts : List AVPacketModel) (hTD : T ≤ (D : ℚ)) :
    startTimeOf T D = 0 ∧
    ((findAnchor tb vIdx (startTimeOf T D) spkts).effectiveStartTime ≤ 0 →
      (∀ p ∈ pkts, 0 ≤ copyPacketTime (iTb p.streamIndex) p) →
      (copyLoop resc iTb oTb
        (findAnchor tb vIdx (startTimeOf T D) spkts).effectiveStartTime pkts).length
        = pkts.length) := by
  have h0 : startTimeOf T D = 0 := by
    unfold startTimeOf
    rw [max_eq_left (by linarith)]
  exact ⟨h0, fun he hall => copyLoopAux_length_all resc iTb oTb _ he pkts _ hall⟩

/-- Witness for the amended C7: duration 5 against total duration 2, a scan
that leaves the effective start at 0, and a packet list that is copied in
full. -/
theorem startTime_clamps_and_copies_all_witness :
    startTimeOf 2 5 = 0 ∧
    (copyLoop rescId (fun _ => 1) (fun _ => 1)
      (findAnchor 1 0 (startTimeOf 2 5) [⟨0, some 0, some 0, 1, true⟩]).effectiveStartTime
      [⟨0, some 0, some 0, 1, true⟩]).length
      = ([(⟨0, some 0, some 0, 1, true⟩ : AVPacketModel)]).length := by
  have h := startTime_clamps_and_copies_all 2 5 1 0 [⟨0, some 0, some 0, 1, true⟩]
    rescId (fun _ => 1) (fun _ => 1) [⟨0, some 0, some 0, 1, true⟩] (by norm_num)
  refine ⟨h.1, h.2 ?_ ?_⟩
  · norm_num [findAnchor, findAnchorAux, scanPacketTime, startTimeOf]
  · intro p hp
    rw [List.mem_singleton] at hp
    subst hp
    norm_num [copyPacketTime]

theorem copyLoopAux_first_ts (resc : Int → ℚ → ℚ → Int) (iTb oTb : Nat → ℚ)
    (effStart : ℚ) (s : Nat) :
    ∀ (pkts : List AVPacketModel) (offs : Nat → Option Int), offs s = none →
    ∀ w : OutPacket,
    ((copyLoopAux resc iTb oTb effStart pkts offs).filter
        (fun q => q.streamIndex == s && hasTimestamp q)).head? = some w →
    w.pts = some 0 ∨ (w.pts = none ∧ w.dts = some 0)
  | [], offs, hoffs, w, hw => by simp [copyLoopAux] at hw
  | p :: rest, offs, hoffs, w, hw => by
    unfold copyLoopAux at hw
    by_cases hskip : copyPacketTime (iTb p.streamIndex) p < effStart
    · rw [if_pos hskip] at hw
      exact copyLoopAux_first_ts resc iTb oTb effStart s rest offs hoffs w hw
    · rw [if_neg hskip] at hw
      dsimp only at hw
      by_cases hps : p.streamIndex = s
      · have hofz : offs p.streamIndex = none := by rw [hps]; exact hoffs
        rcases hpts : p.pts with _ | v
        · rcases hdts : p.dts with _ | v2
          · -- untimestamped retained packet: not in the filter, offset stays none
            simp only [hpts, hdts, hofz, List.filter_cons, hasTimestamp, Option.isSome_none,
              Bool.or_self, Bool.and_false, Bool.false_eq_true, if_false] at hw
            refine copyLoopAux_first_ts resc iTb oTb effStart s rest
              (fun i => if i = p.streamIndex then none else offs i) ?_ w ?_
            · by_cases h2 : s = p.streamIndex <;> simp [h2, hoffs]
            · exact hw
          · -- first timestamped packet carries only dts: its dts is rebased to 0
            simp only [hpts, hdts, hofz, List.filter_cons, hasTimestamp] at hw
            simp only [hps, beq_self_eq_true, Bool.true_and, Option.isSome_none,
              Option.isSome_some, Bool.false_or, if_true, List.head?_cons, Option.some.injEq] at hw
            right
            rw [← hw]
            simp
        · -- first timestamped packet carries pts: its pts is rebased to 0
          simp only [hpts, hofz, List.filter_cons, hasTimestamp] at hw
          simp only [hps, beq_self_eq_true, Bool.true_and, Option.isSome_some, Bool.true_or,
            if_true, List.head?_cons, Option.some.injEq] at hw
          left
          rw [← hw]
          simp
      · -- packet of another stream: not in the filter for s, offset for s untouched
        have hbeq : (p.streamIndex == s) = false := by
          simp [hps]
        simp only [List.filter_cons, hbeq, Bool.false_and, Bool.false_eq_true, if_false] at hw
        refine copyLoopAux_first_ts resc iTb oTb effStart s rest _ ?_ w hw
        have h2 : ¬(s = p.streamIndex) := fun h => hps h.symm
        simp [h2, hoffs]

/-- Counterexample to C6: with effective start 0, a stream whose first
retained packet carries no timestamp still retains a later timestamped
packet; the first retained packet is written with no timestamp at all (not
with rebased timestamp 0), and the offset is taken from the later packet. -/
theorem copyLoop_untimestamped_first_counterexample :
    copyLoop rescId (fun _ => 1) (fun _ => 1) 0
      [⟨0, none, none, 1, false⟩, ⟨0, some 100, some 100, 1, false⟩]
      = [⟨0, none, none, 1⟩, ⟨0, some 0, some 0, 1⟩] ∧
    (copyLoop rescId (fun _ => 1) (fun _ => 1) 0
      [⟨0, none, none, 1, false⟩, ⟨0, some 100, some 100, 1, false⟩]).head?
      = some ⟨0, none, none, 1⟩ ∧
    (⟨0, none, none, 1⟩ : OutPacket).pts ≠ some 0 ∧
    (⟨0, none, none, 1⟩ : OutPacket).dts ≠ some 0 := by
  have h : copyLoop rescId (fun _ => 1) (fun _ => 1) 0
      [⟨0, none, none, 1, false⟩, ⟨0, some 100, some 100, 1, false⟩]
      = [⟨0, none, none, 1⟩, ⟨0, some 0, some 0, 1⟩] := by
    norm_num [copyLoop, copyLoopAux, copyPacketTime, rescId]
  exact ⟨h, by rw [h]; rfl, by decide, by decide⟩

/-- Claim C6 as amended: for every output stream, the first written packet
of that stream that carries any timestamp has its timestamp rebased to 0 -
presentation timestamp 0 when it has one, otherwise decode timestamp 0; the
offset is recorded from that packet's own rescaled timestamp and only that
stream's later packets are rebased by it, independently of the other
streams, for any rescaler and any per-stream time bases. -/
theorem copyLoop_first_timestamped_zero (resc : Int → ℚ → ℚ → Int) (iTb oTb : Nat → ℚ)
    (effStart : ℚ) (pkts : List AVPacketModel) (s : Nat) (w : OutPacket)
    (hw : ((copyLoop resc iTb oTb effStart pkts).filter
        (fun q => q.streamIndex == s && hasTimestamp q)).head? = some w) :
    w.pts = some 0 ∨ (w.pts = none ∧ w.dts = some 0) :=
  copyLoopAux_first_ts resc iTb oTb effStart s pkts (fun _ => none) rfl w hw

/-- Witness for the amended C6: the first timestamped written packet of
stream 0 is written with presentation timestamp 0. -/
theorem copyLoop_first_timestamped_zero_witness :
    ((copyLoop rescId (fun _ => 1) (fun _ => 1) 0
      [⟨0, none, none, 1, false⟩, ⟨0, some 100, some 100, 1, false⟩]).filter
        (fun q => q.streamIndex == 0 && hasTimestamp q)).head?
      = some ⟨0, some 0, some 0, 1⟩ ∧
    ((⟨0, some 0, some 0, 1⟩ : OutPacket).pts = some 0 ∨
      ((⟨0, some 0, some 0, 1⟩ : OutPacket).pts = none ∧
       (⟨0, some 0, some 0, 1⟩ : OutPacket).dts = some 0)) := by
  have h : ((copyLoop rescId (fun _ => 1) (fun _ => 1) 0
      [⟨0, none, none, 1, false⟩, ⟨0, some 100, some 100, 1, false⟩]).filter
        (fun q => q.streamIndex == 0 && hasTimestamp q)).head?
      = some ⟨0, some 0, some 0, 1⟩ := by
    norm_num [copyLoop, copyLoopAux, copyPacketTime, rescId, hasTimestamp, List.filter]
  exact ⟨h, copyLoop_first_timestamped_zero rescId (fun _ => 1) (fun _ => 1) 0
    [⟨0, none, none, 1, false⟩, ⟨0, some 100, some 100, 1, false⟩] 0 ⟨0, some 0, some 0, 1⟩ h⟩

end ReplayBufferPro
